import Mathlib

/-!
# Verification of the FxFixParser parsing core

A shallow embedding of the FIX-message parsing core of the FxFixParser
repository (`core/parser.py`, `core/message.py`, `core/field.py`,
`core/exceptions.py`, `tags/repeating_groups.py`), together with proofs
about the embedded definitions.

Modelling conventions:
* Python strings are modelled as `String` / `List Char`; `ord` is the
  Unicode code point, `Char.toNat`.
* Python's `int(...)` / `float(...)` string conversions are modelled for
  ASCII inputs (Unicode digit classes are out of scope; all message data
  in this code base is ASCII).  The IEEE value produced by `float` is not
  modelled: no claim depends on it, only on whether conversion succeeds.
* Exceptions raised by the parser are modelled as an `Except` result with
  an explicit error type; `ChecksumError` and `ValidationError` are
  distinct constructors (in the source they are distinct subclasses of
  `ParseError`).
* Loops on the Python side become structural recursion; the two scans
  whose step consumes a variable number of elements (`re.findall` and
  `get_structured_fields`) use an explicit fuel argument initialised to
  the input length, which is always sufficient (proved where needed).
-/

/-! ## Python string helpers -/

/-- ASCII whitespace as recognised by Python's `str.strip()` and by the
leading/trailing whitespace allowance of `int()` / `float()`. -/
def pyIsSpace (c : Char) : Bool :=
  c = ' ' || c = '\t' || c = '\n' || c = '\r' || c = '\x0b' || c = '\x0c'

/-- Python `str.strip()`: drop whitespace from both ends. -/
def pyStrip (l : List Char) : List Char :=
  ((l.dropWhile pyIsSpace).reverse.dropWhile pyIsSpace).reverse

/-- Python `str.upper()` (ASCII). -/
def pyUpper (s : String) : String :=
  ⟨s.data.map Char.toUpper⟩

/-- Accumulate the decimal value of a digit run that may contain single
underscores between digits (Python numeric-literal syntax accepted by
`int()`), starting from the value of the digits consumed so far.
Returns `none` on any malformed continuation (trailing underscore,
double underscore, or any non-digit character). -/
def digitsValU : Nat → List Char → Option Nat
  | acc, [] => some acc
  | acc, '_' :: c :: cs =>
    if c.isDigit then digitsValU (acc * 10 + (c.toNat - 48)) cs else none
  | _, ['_'] => none
  | acc, c :: cs =>
    if c.isDigit then digitsValU (acc * 10 + (c.toNat - 48)) cs else none

/-- Python `int(s)` on an ASCII string: optional surrounding whitespace,
optional sign, then a digit run with optional single underscores between
digits.  `none` models `ValueError`. -/
def pyInt (l : List Char) : Option Int :=
  match pyStrip l with
  | '+' :: c :: cs =>
    if c.isDigit then (digitsValU (c.toNat - 48) cs).map Int.ofNat else none
  | '-' :: c :: cs =>
    if c.isDigit then (digitsValU (c.toNat - 48) cs).map (fun n => -(n : Int))
    else none
  | c :: cs =>
    if c.isDigit then (digitsValU (c.toNat - 48) cs).map Int.ofNat else none
  | [] => none

/-- Consume the continuation of a digit run (digits, with single
underscores allowed between digits); returns the unconsumed remainder.
Used by the `float()` recogniser. -/
def munchDU : List Char → List Char
  | '_' :: c :: cs => if c.isDigit then munchDU cs else '_' :: c :: cs
  | c :: cs => if c.isDigit then munchDU cs else c :: cs
  | [] => []

/-- A digit part (at least one digit, underscores between digits);
returns the remainder on success. -/
def digitPart : List Char → Option (List Char)
  | c :: cs => if c.isDigit then some (munchDU cs) else none
  | [] => none

/-- The numeric part of a Python float literal:
`digits [ . [digits] ]` or `. digits`. -/
def pyFloatNum (l : List Char) : Option (List Char) :=
  match digitPart l with
  | some r =>
    match r with
    | '.' :: r2 =>
      match digitPart r2 with
      | some r3 => some r3
      | none => some r2
    | _ => some r
  | none =>
    match l with
    | '.' :: r2 => digitPart r2
    | _ => none

/-- Optional exponent of a Python float literal. -/
def pyFloatExp : List Char → Option (List Char)
  | [] => some []
  | c :: r =>
    if c = 'e' || c = 'E' then
      match r with
      | s :: r2 => if s = '+' || s = '-' then digitPart r2 else digitPart r
      | [] => none
    else some (c :: r)

/-- Whether Python `float(s)` succeeds on an ASCII string: optional
surrounding whitespace, optional sign, then `inf`/`infinity`/`nan`
(case-insensitive) or a numeric literal with optional exponent. -/
def pyFloatOk (l : List Char) : Bool :=
  let t :=
    match pyStrip l with
    | '+' :: r => r
    | '-' :: r => r
    | r => r
  let low := t.map Char.toLower
  if low = "inf".data || low = "infinity".data || low = "nan".data then true
  else
    match pyFloatNum t with
    | some r =>
      match pyFloatExp r with
      | some [] => true
      | _ => false
    | none => false

/-! ## `core/field.py`: field definitions and typed values -/

/-- `FixFieldDefinition` from `core/field.py` (the `valid_values` dict is
modelled as an association list). -/
structure FixFieldDefinition where
  tag : Nat
  name : String
  field_type : String := "STRING"
  description : String := ""
  valid_values : List (String × String) := []
deriving DecidableEq, Repr

/-- `FixField` from `core/field.py`. -/
structure FixField where
  tag : Nat
  raw_value : String
  definition : Option FixFieldDefinition := none
deriving DecidableEq, Repr

/-- The possible results of `FixField.typed_value` (Python returns
`int | float | bool | str`).  The `float` constructor records the raw
string that parsed as a float; its IEEE value is not modelled (no claim
depends on it). -/
inductive TypedValue where
  | int (i : Int)
  | float (raw : String)
  | bool (b : Bool)
  | str (s : String)
deriving DecidableEq, Repr

/-- `FixField.typed_value` from `core/field.py`: coercion driven by the
definition's `field_type`; conversion failures fall back to the raw
string (the source logs at debug level and returns `self.raw_value`). -/
def typed_value (f : FixField) : TypedValue :=
  match f.definition with
  | none => .str f.raw_value
  | some d =>
    let ft := pyUpper d.field_type
    if ft = "INT" || ft = "LENGTH" || ft = "SEQNUM" || ft = "NUMINGROUP" then
      match pyInt f.raw_value.data with
      | some i => .int i
      | none => .str f.raw_value
    else if ft = "FLOAT" || ft = "PRICE" || ft = "QTY" || ft = "AMT" ||
        ft = "PERCENTAGE" || ft = "PRICEOFFSET" then
      if pyFloatOk f.raw_value.data then .float f.raw_value
      else .str f.raw_value
    else if ft = "BOOLEAN" then
      .bool (f.raw_value = "Y" || f.raw_value = "1")
    else .str f.raw_value

/-! ## `core/exceptions.py`: error taxonomy -/

/-- The parser's exception hierarchy (`ParseError` and its two
subclasses), as a sum type.  `parseError` carries the message and the
optional position, `checksumError` the expected and actual checksum
strings, `validationError` the message and the optional offending tag. -/
inductive ParseErr where
  | parseError (msg : String) (position : Option Nat)
  | checksumError (expected actual : String)
  | validationError (msg : String) (tag : Option Nat)
deriving DecidableEq, Repr

instance {ε α : Type} [DecidableEq ε] [DecidableEq α] :
    DecidableEq (Except ε α) := fun a b =>
  match a, b with
  | .ok x, .ok y =>
    if h : x = y then .isTrue (by rw [h]) else .isFalse (by simp [h])
  | .error x, .error y =>
    if h : x = y then .isTrue (by rw [h]) else .isFalse (by simp [h])
  | .ok _, .error _ => .isFalse (by simp)
  | .error _, .ok _ => .isFalse (by simp)

/-! ## `core/parser.py`: configuration, tokenizer, validation -/

/-- `ParserConfig` from `core/parser.py`. -/
structure ParserConfig where
  strict_checksum : Bool := true
  strict_body_length : Bool := false
  default_delimiter : Char := '\x01'
  allow_pipe_delimiter : Bool := true
deriving DecidableEq, Repr

/-- The SOH delimiter (`FixParser.SOH`). -/
def SOH : Char := '\x01'

/-- Python `message.replace("\r\n", "")`: remove non-overlapping CRLF
pairs, scanning left to right. -/
def removeCRLFPairs : List Char → List Char
  | [] => []
  | [c] => [c]
  | c1 :: c2 :: rest =>
    if c1 = '\r' && c2 = '\n' then removeCRLFPairs rest
    else c1 :: removeCRLFPairs (c2 :: rest)

/-- Python `message.replace(c, "")` for a single character. -/
def removeChar (c : Char) (l : List Char) : List Char :=
  l.filter (fun x => x ≠ c)

/-- The newline-stripping part of `FixParser._normalize_delimiter`:
`message.replace("\r\n", "").replace("\r", "").replace("\n", "")`. -/
def stripNewlines (l : List Char) : List Char :=
  removeChar '\n' (removeChar '\r' (removeCRLFPairs l))

/-- `FixParser._normalize_delimiter`: strip CR/LF, then substitute SOH
for pipe when pipe detection is enabled and a pipe is present. -/
def normalize_delimiter (cfg : ParserConfig) (l : List Char) : List Char :=
  let m := stripNewlines l
  if cfg.allow_pipe_delimiter = true ∧ '|' ∈ m then
    m.map (fun c => if c = '|' then SOH else c)
  else m

/-- Value of an ASCII digit run (the tag part matched by the regex). -/
def digitsToNat (ds : List Char) : Nat :=
  ds.foldl (fun acc c => acc * 10 + (c.toNat - 48)) 0

/-- One step of `re.findall(r"(\d+)=([^\x01]*)\x01?", message)`: scan for
the next position where a digit run is immediately followed by `=`; the
value then extends to the next SOH (or the end), and a trailing SOH is
consumed.  On a failed match attempt the scan advances one character
(regex semantics).  `fuel` bounds the recursion; `fuel = length` always
suffices. -/
def scanAux : Nat → List Char → List (Nat × String)
  | 0, _ => []
  | _, [] => []
  | fuel + 1, c :: cs =>
    if c.isDigit then
      match (c :: cs).dropWhile Char.isDigit with
      | '=' :: rest2 =>
        (digitsToNat ((c :: cs).takeWhile Char.isDigit),
          ⟨rest2.takeWhile (fun x => x ≠ SOH)⟩) ::
          scanAux fuel (rest2.dropWhile (fun x => x ≠ SOH)).tail
      | _ => scanAux fuel cs
    else scanAux fuel cs

/-- `FixParser._extract_fields` (the `int(tag_str)` conversion in the
source can never fail on a `\d+` match; its `except` branch is dead). -/
def extract_fields (l : List Char) : List (Nat × String) :=
  scanAux l.length l

/-! ## `core/message.py`: the message model -/

/-- `FixMessage` from `core/message.py` (the two post-parse enrichment
attributes are kept for fidelity; the parser leaves them `none` when no
venue is supplied). -/
structure FixMessage where
  fields : List FixField := []
  raw_message : String := ""
  venue : Option String := none
  product_type : Option String := none
deriving DecidableEq, Repr

/-- `FixMessage.get_field`: first field with the given tag. -/
def FixMessage.get_field (m : FixMessage) (tag : Nat) : Option FixField :=
  m.fields.find? (fun f => f.tag = tag)

/-- `FixMessage.get_fields`: all fields with the given tag, in order. -/
def FixMessage.get_fields (m : FixMessage) (tag : Nat) : List FixField :=
  m.fields.filter (fun f => f.tag = tag)

/-! ## `core/parser.py`: checksum and structural validation -/

/-- `FixParser.calculate_checksum`: byte-value sum modulo 256, rendered
as exactly three decimal digits (`f"{total % 256:03d}"`; the value is
below 1000, so the zero-padded width is always exactly 3). -/
def calculate_checksum (body : List Char) : String :=
  let t := (body.map Char.toNat).sum % 256
  ⟨[Char.ofNat (48 + t / 100), Char.ofNat (48 + t / 10 % 10),
    Char.ofNat (48 + t % 10)]⟩

/-- Python `hay.rfind(pat)` restricted to what the parser needs: the
greatest index at which `pat` occurs, searching downward from `start`. -/
def rfindFrom (hay pat : List Char) : Nat → Option Nat
  | 0 => if (hay.take pat.length) = pat then some 0 else none
  | i + 1 =>
    if ((hay.drop (i + 1)).take pat.length) = pat then some (i + 1)
    else rfindFrom hay pat i

/-- Python `hay.rfind(pat)` (as `Option`; `none` models `-1`). -/
def strRFind (hay pat : List Char) : Option Nat :=
  rfindFrom hay pat hay.length

/-- `FixParser._validate_checksum`. -/
def validate_checksum (msg : FixMessage) (normalized : List Char) :
    Except ParseErr Unit :=
  match msg.get_field 10 with
  | none => .error (.validationError "Missing CheckSum (tag 10)" none)
  | some cf =>
    match strRFind normalized "10=".data with
    | none =>
      .error (.validationError "Cannot locate checksum in message" none)
    | some idx =>
      let body := normalized.take idx
      let expected := calculate_checksum body
      if expected ≠ cf.raw_value then
        .error (.checksumError expected cf.raw_value)
      else .ok ()

/-- `FixParser._validate_structure`: the four envelope checks in source
order, then the checksum check under strict mode.  (The
`strict_body_length` toggle is declared in `ParserConfig` but never
consulted anywhere in the source.) -/
def validate_structure (cfg : ParserConfig) (msg : FixMessage)
    (normalized : List Char) : Except ParseErr Unit :=
  if msg.fields = [] then
    .error (.validationError "Message has no fields" none)
  else if msg.fields.head?.map FixField.tag ≠ some 8 then
    .error (.validationError "Message must start with BeginString (tag 8)" none)
  else if (msg.fields.get? 1).map FixField.tag ≠ some 9 then
    .error (.validationError "BodyLength (tag 9) must be second field" none)
  else if (msg.fields.get? 2).map FixField.tag ≠ some 35 then
    .error (.validationError "MsgType (tag 35) must be third field" none)
  else if msg.fields.getLast?.map FixField.tag ≠ some 10 then
    .error (.validationError "Message must end with CheckSum (tag 10)" none)
  else if cfg.strict_checksum then validate_checksum msg normalized
  else .ok ()

/-- `FixParser._build_fields`: attach dictionary definitions.  The tag
dictionary is an external read-only collaborator, modelled as a lookup
function. -/
def build_fields (dict : Nat → Option FixFieldDefinition)
    (raw_fields : List (Nat × String)) : List FixField :=
  raw_fields.map (fun p => { tag := p.1, raw_value := p.2, definition := dict p.1 })

/-- `FixParser.parse` with `venue=None` (no claim involves the venue
path: with no venue the source uses its base dictionary unchanged and
leaves `message.venue` unset). -/
def parse (dict : Nat → Option FixFieldDefinition) (cfg : ParserConfig)
    (raw : String) : Except ParseErr FixMessage :=
  if pyStrip raw.data = [] then .error (.parseError "Empty message" none)
  else
    let normalized := normalize_delimiter cfg raw.data
    let raw_fields := extract_fields normalized
    if raw_fields = [] then
      .error (.parseError "No valid fields found in message" none)
    else
      let fields := build_fields dict raw_fields
      let msg : FixMessage := { fields := fields, raw_message := raw }
      match validate_structure cfg msg normalized with
      | .error e => .error e
      | .ok _ => .ok msg

/-- The parse result projected to its flat field list (the stored
`raw_message` is the verbatim input and trivially differs between two
textually different inputs; "identical parse result" claims are about
the parsed fields and the error outcome). -/
def parseFields (dict : Nat → Option FixFieldDefinition)
    (cfg : ParserConfig) (raw : String) : Except ParseErr (List FixField) :=
  (parse dict cfg raw).map FixMessage.fields

/-! ## `tags/repeating_groups.py`: the group schema table -/

/-- `RepeatingGroupDefinition` from `tags/repeating_groups.py` (the
Python `set` of member tags is modelled as a list used only through
membership). -/
structure RepeatingGroupDefinition where
  count_tag : Nat
  name : String
  member_tags : List Nat
deriving DecidableEq, Repr

/-- The static `REPEATING_GROUPS` table, verbatim from
`tags/repeating_groups.py`. -/
def REPEATING_GROUPS : List RepeatingGroupDefinition :=
  [ { count_tag := 268, name := "Market Data Entries",
      member_tags := [269, 270, 271, 272, 273, 274, 275, 276, 277, 278,
        279, 280, 282, 283, 284, 286, 290, 291, 292, 15, 64, 40, 110,
        1026, 1027, 9122, 9123, 37, 198, 336, 625, 58] },
    { count_tag := 267, name := "Market Data Entry Types",
      member_tags := [269] },
    { count_tag := 453, name := "Party IDs",
      member_tags := [448, 447, 452, 802] },
    { count_tag := 146, name := "Related Symbols",
      member_tags := [55, 65, 48, 22, 167, 207, 106, 107, 15, 64, 54,
        38, 63, 193, 192, 126, 8004] },
    { count_tag := 555, name := "Legs",
      member_tags := [600, 602, 603, 604, 608, 609, 610, 611, 612, 613,
        614, 615, 616, 617, 618, 619, 620, 621, 622, 623, 624, 556, 564,
        565, 566, 587, 588, 637, 654, 682, 683, 684, 685, 686, 687] },
    { count_tag := 78, name := "Allocations",
      member_tags := [79, 661, 573, 366, 80, 467, 81, 736, 737, 161] },
    { count_tag := 73, name := "Orders",
      member_tags := [11, 526, 67, 583, 160] },
    { count_tag := 1362, name := "Fills",
      member_tags := [1363, 1364, 1365, 1443] },
    { count_tag := 1141, name := "Trading Session Rules",
      member_tags := [336, 625] } ]

/-- `get_group_definition` from `tags/repeating_groups.py`: first table
entry whose count tag matches. -/
def get_group_definition (count_tag : Nat) : Option RepeatingGroupDefinition :=
  REPEATING_GROUPS.find? (fun g => g.count_tag = count_tag)

/-! ## `core/message.py`: repeating-group reconstruction -/

/-- `RepeatingGroupEntry` from `core/message.py` (`index` is 1-based;
it is an `int` in Python and is compared against the possibly negative
declared count, hence `Int`). -/
structure RepeatingGroupEntry where
  index : Int
  fields : List FixField := []
deriving DecidableEq, Repr

/-- `RepeatingGroup` from `core/message.py`. -/
structure RepeatingGroup where
  name : String
  count_field : FixField
  entries : List RepeatingGroupEntry := []
deriving DecidableEq, Repr

/-- `RepeatingGroup.count`: the declared entry count, parsed from the
count field's raw value; a failed parse is logged as a warning and
yields 0. -/
def RepeatingGroup.count (g : RepeatingGroup) : Int :=
  match pyInt g.count_field.raw_value.data with
  | some n => n
  | none => 0

/-- `StructuredField` from `core/message.py`: a tagged union of a
standalone field and a repeating group (in the source, a dataclass with
two optional attributes of which exactly one is populated). -/
inductive StructuredField where
  | field (f : FixField)
  | group (g : RepeatingGroup)
deriving DecidableEq, Repr

/-- The warnings `get_structured_fields` can log (non-fatal). -/
inductive GroupWarning where
  | nonNumericCount (tag : Nat) (raw : String)
  | countMismatch (name : String) (tag : Nat) (declared : Int) (actual : Nat)
deriving DecidableEq, Repr

/-- The inner entry-collection loop of `FixMessage.get_structured_fields`
(`while i < len(self.fields) and entry_index <= count`).  State:
declared `count`, current `entryIndex`, the current entry buffer, the
set of tags seen in the current entry, and the remaining fields.
Returns the completed entries (including the final non-empty buffer
flushed after the loop) and the remaining fields at which the outer
loop resumes. -/
def groupLoop (member : List Nat) (count : Int) :
    Int → List FixField → List Nat → List FixField →
    List RepeatingGroupEntry × List FixField
  | entryIndex, buffer, _, [] =>
    ((if buffer = [] then [] else [{ index := entryIndex, fields := buffer }]), [])
  | entryIndex, buffer, seen, fld :: rest =>
    if entryIndex > count then
      ((if buffer = [] then [] else [{ index := entryIndex, fields := buffer }]),
        fld :: rest)
    else if fld.tag ∈ member then
      if buffer ≠ [] ∧ fld.tag ∈ seen then
        let r := groupLoop member count (entryIndex + 1) [fld] [fld.tag] rest
        ({ index := entryIndex, fields := buffer } :: r.1, r.2)
      else
        groupLoop member count entryIndex (buffer ++ [fld]) (fld.tag :: seen) rest
    else
      ((if buffer = [] then [] else [{ index := entryIndex, fields := buffer }]),
        fld :: rest)

/-- `FixMessage.get_structured_fields`, with the warnings it would log
made explicit in the result.  `fuel` bounds the outer loop;
`fuel = fields.length` always suffices since every iteration consumes at
least one field. -/
def gsfAux : Nat → List FixField → List StructuredField × List GroupWarning
  | _, [] => ([], [])
  | 0, _ :: _ => ([], [])
  | fuel + 1, f :: rest =>
    match get_group_definition f.tag with
    | some gd =>
      let count : Int :=
        match pyInt f.raw_value.data with
        | some n => n
        | none => 0
      let warn1 : List GroupWarning :=
        match pyInt f.raw_value.data with
        | some _ => []
        | none => [.nonNumericCount f.tag f.raw_value]
      let r := groupLoop gd.member_tags count 1 [] [] rest
      let actual := r.1.length
      let warn2 : List GroupWarning :=
        if count > 0 ∧ (actual : Int) ≠ count then
          [.countMismatch gd.name f.tag count actual]
        else []
      let rec_ := gsfAux fuel r.2
      (.group { name := gd.name, count_field := f, entries := r.1 } :: rec_.1,
        warn1 ++ warn2 ++ rec_.2)
    | none =>
      let rec_ := gsfAux fuel rest
      (.field f :: rec_.1, rec_.2)

/-- `FixMessage.get_structured_fields` on a flat field list. -/
def get_structured_fields (fields : List FixField) : List StructuredField :=
  (gsfAux fields.length fields).1

/-- The warnings `get_structured_fields` logs on a flat field list. -/
def structured_warnings (fields : List FixField) : List GroupWarning :=
  (gsfAux fields.length fields).2

/-- `FixMessage.get_structured_fields` as a method on messages. -/
def FixMessage.structuredFields (m : FixMessage) : List StructuredField :=
  get_structured_fields m.fields

/-! ## Spec-side definitions used to state the claims -/

/-- The envelope invariant on a tokenized field list: tag 8 first, tag 9
second, tag 35 third, tag 10 last (positions 0-indexed; a position that
does not exist violates the invariant, as in the source's length
checks). -/
def envelopeOK (fs : List (Nat × String)) : Prop :=
  fs.head?.map Prod.fst = some 8 ∧ (fs.get? 1).map Prod.fst = some 9 ∧
    (fs.get? 2).map Prod.fst = some 35 ∧ fs.getLast?.map Prod.fst = some 10

instance (fs : List (Nat × String)) : Decidable (envelopeOK fs) := by
  unfold envelopeOK; infer_instance

/-- The walk described by claim C2 over the structured view: each
standalone entry contributes its field; each group contributes its count
field followed by every entry's fields in order.  (Spec-side definition,
to be compared with the flat list.) -/
def flatten_structured_walk : List StructuredField → List FixField
  | [] => []
  | .field f :: rest => f :: flatten_structured_walk rest
  | .group g :: rest =>
    g.count_field ::
      ((g.entries.map RepeatingGroupEntry.fields).flatten ++
        flatten_structured_walk rest)

/-- No digit is immediately followed by `=` anywhere in the list: the
condition under which the tokenizer's scan can never start a match
inside this stretch of text.  (Spec-side definition for claim C8.) -/
def noTagStart : List Char → Prop
  | c1 :: c2 :: rest => ¬(c1.isDigit = true ∧ c2 = '=') ∧ noTagStart (c2 :: rest)
  | _ => True

instance : ∀ l, Decidable (noTagStart l)
  | [] => .isTrue trivial
  | [_] => .isTrue trivial
  | c1 :: c2 :: rest =>
    have := instDecidableNoTagStart (c2 :: rest)
    by unfold noTagStart; infer_instance

/-- `B` followed by `10=` and the checksum of `B` (the construction in
claim C4). -/
def appendChecksum (B : List Char) : List Char :=
  B ++ '1' :: '0' :: '=' :: (calculate_checksum B).data

/-! ## Lemmas about the group reconstruction -/

/-- The entry-collection loop only consumes fields: the remainder it
returns is a suffix-bounded part of its input. -/
theorem groupLoop_rest_length_le (member : List Nat) (count : Int) :
    ∀ (l : List FixField) (ei : Int) (buf : List FixField) (seen : List Nat),
      (groupLoop member count ei buf seen l).2.length ≤ l.length := by
  intro l
  induction l with
  | nil => intro ei buf seen; simp [groupLoop]
  | cons fld rest ih =>
    intro ei buf seen
    simp only [groupLoop, List.length_cons]
    split_ifs <;>
      first
        | exact Nat.le_succ_of_le (ih _ _ _)
        | simp

/-- Everything the entry-collection loop consumes lands in its entries,
in order: flattening the entries and appending the remainder recovers
the buffer followed by the input. -/
theorem groupLoop_flatten (member : List Nat) (count : Int) :
    ∀ (l : List FixField) (ei : Int) (buf : List FixField) (seen : List Nat),
      ((groupLoop member count ei buf seen l).1.map
          RepeatingGroupEntry.fields).flatten ++
        (groupLoop member count ei buf seen l).2 = buf ++ l := by
  intro l
  induction l with
  | nil =>
    intro ei buf seen
    by_cases hb : buf = [] <;> simp [groupLoop, hb]
  | cons fld rest ih =>
    intro ei buf seen
    simp only [groupLoop]
    by_cases h1 : ei > count
    · rw [if_pos h1]
      by_cases hb : buf = [] <;> simp [hb]
    · rw [if_neg h1]
      by_cases h2 : fld.tag ∈ member
      · rw [if_pos h2]
        by_cases h3 : buf ≠ [] ∧ fld.tag ∈ seen
        · rw [if_pos h3]
          have h := ih (ei + 1) [fld] [fld.tag]
          simp only [List.map_cons, List.flatten_cons, List.append_assoc] at h ⊢
          rw [h]
          simp
        · rw [if_neg h3]
          have h := ih ei (buf ++ [fld]) (fld.tag :: seen)
          rw [h]
          simp
      · rw [if_neg h2]
        by_cases hb : buf = [] <;> simp [hb]

/-- With fuel at least the number of fields, the structured view
flattens back to the input (fuel-indexed core of claim C2). -/
theorem gsfAux_flatten :
    ∀ (fuel : Nat) (fs : List FixField), fs.length ≤ fuel →
      flatten_structured_walk (gsfAux fuel fs).1 = fs := by
  intro fuel
  induction fuel with
  | zero =>
    intro fs hle
    have : fs = [] := List.length_eq_zero.mp (Nat.le_zero.mp hle)
    subst this
    simp [gsfAux, flatten_structured_walk]
  | succ fuel ih =>
    intro fs hle
    match fs with
    | [] => simp [gsfAux, flatten_structured_walk]
    | f :: rest =>
      have hrest : rest.length ≤ fuel := Nat.succ_le_succ_iff.mp hle
      simp only [gsfAux]
      match hgd : get_group_definition f.tag with
      | some gd =>
        have hflat := groupLoop_flatten gd.member_tags
          (match pyInt f.raw_value.data with | some n => n | none => 0)
          rest 1 [] []
        have hlen := groupLoop_rest_length_le gd.member_tags
          (match pyInt f.raw_value.data with | some n => n | none => 0)
          rest 1 [] []
        have hrec := ih _ (le_trans hlen hrest)
        simp only [flatten_structured_walk, List.nil_append] at hflat ⊢
        rw [hrec, hflat]
      | none =>
        have hrec := ih rest hrest
        simp only [flatten_structured_walk]
        rw [hrec]

/-- With a non-positive declared count the entry loop consumes nothing:
its condition `entry_index <= count` fails at the first iteration and
the empty buffer is never flushed. -/
theorem groupLoop_nonpos (member : List Nat) (count : Int)
    (hc : count < 1) (l : List FixField) :
    groupLoop member count 1 [] [] l = ([], l) := by
  match l with
  | [] => simp [groupLoop]
  | fld :: rest =>
    have : (1 : Int) > count := hc
    simp [groupLoop, if_pos this]

/-- C1: the flat list `[268=2, 269=0, 270=1.0850, 271=1000000,
270=1.0852, 271=2000000]` reconstructs to a single tag-268 group with
exactly two entries: entry 1 holds `[269, 270, 271]` with `270=1.0850`
and entry 2 holds `[270, 271]` with `270=1.0852`; the boundary fires on
the first repeated member tag (270), not on tag 269. -/
theorem c1_boundary_example :
    FixMessage.structuredFields
        { fields :=
            [⟨268, "2", none⟩, ⟨269, "0", none⟩, ⟨270, "1.0850", none⟩,
              ⟨271, "1000000", none⟩, ⟨270, "1.0852", none⟩,
              ⟨271, "2000000", none⟩],
          raw_message := "" } =
      [.group
        { name := "Market Data Entries",
          count_field := ⟨268, "2", none⟩,
          entries :=
            [{ index := 1,
               fields := [⟨269, "0", none⟩, ⟨270, "1.0850", none⟩,
                 ⟨271, "1000000", none⟩] },
             { index := 2,
               fields := [⟨270, "1.0852", none⟩,
                 ⟨271, "2000000", none⟩] }] }] := by
  decide

/-- C2: the structured view preserves the flat list exactly — walking
the `StructuredField` sequence and emitting each standalone field, and
for each group its count field followed by every entry's fields in
order, reproduces the original flat field list.  (The flat list itself
is untouched: `get_structured_fields` is a pure function of it.) -/
theorem c2_flatten_roundtrip (m : FixMessage) :
    flatten_structured_walk m.structuredFields = m.fields :=
  gsfAux_flatten m.fields.length m.fields le_rfl

/-- C10: a registered count tag whose raw value parses as a negative
integer produces a group with zero entries, logs no declared-vs-actual
mismatch warning, and leaves all following fields — in particular any
immediately following member-tag fields — to the outer loop, exactly as
a declared count of 0 would. -/
theorem c10_negative_count (f : FixField) (gd : RepeatingGroupDefinition)
    (rest : List FixField) (hgd : get_group_definition f.tag = some gd)
    (n : Int) (hn : pyInt f.raw_value.data = some n) (hneg : n < 0) :
    get_structured_fields (f :: rest) =
        .group { name := gd.name, count_field := f, entries := [] } ::
          get_structured_fields rest ∧
      structured_warnings (f :: rest) = structured_warnings rest := by
  have hloop := groupLoop_nonpos gd.member_tags n
    (lt_trans hneg Int.zero_lt_one) rest
  have hwarn : ¬(n > 0 ∧ (([] : List RepeatingGroupEntry).length : Int) ≠ n) := by
    intro h
    exact absurd h.1 (not_lt.mpr (le_of_lt hneg))
  constructor
  · simp only [get_structured_fields, List.length_cons, gsfAux, hgd, hn,
      hloop, hwarn, if_neg hwarn]
  · simp only [structured_warnings, List.length_cons, gsfAux, hgd, hn,
      hloop, if_neg hwarn]
    simp

/-- Witness for C10: count tag 268 with raw value `-2` followed by two
member-tag fields yields a zero-entry group, both member fields emitted
standalone, and no warnings at all. -/
theorem c10_negative_count_witness :
    get_structured_fields
        [⟨268, "-2", none⟩, ⟨269, "0", none⟩, ⟨270, "1.1", none⟩] =
      [.group { name := "Market Data Entries",
                count_field := ⟨268, "-2", none⟩, entries := [] },
        .field ⟨269, "0", none⟩, .field ⟨270, "1.1", none⟩] ∧
    structured_warnings
        [⟨268, "-2", none⟩, ⟨269, "0", none⟩, ⟨270, "1.1", none⟩] = [] := by
  have h := c10_negative_count ⟨268, "-2", none⟩
    ((get_group_definition 268).getD ⟨0, "", []⟩)
    [⟨269, "0", none⟩, ⟨270, "1.1", none⟩] (by decide) (-2) (by decide)
    (by decide)
  exact ⟨h.1.trans (by decide), h.2.trans (by decide)⟩

/-- C9: typed-value coercion is total and never replaces the raw value.
(a) A boolean-typed field coerces to `true` exactly on the literals `Y`
and `1` and to `false` on everything else; (b) an integer-typed field
whose raw value does not convert yields the raw string unchanged; (c) a
float-typed field whose raw value does not convert yields the raw
string unchanged.  `typed_value` is a total function into `TypedValue`
(it models code that never raises), and the field itself — in
particular its `raw_value` — is never modified. -/
theorem c9_typed_value_fallback :
    (∀ (f : FixField) (d : FixFieldDefinition), f.definition = some d →
      pyUpper d.field_type = "BOOLEAN" →
      typed_value f = .bool (f.raw_value = "Y" || f.raw_value = "1")) ∧
    (∀ (f : FixField) (d : FixFieldDefinition), f.definition = some d →
      pyUpper d.field_type ∈ ["INT", "LENGTH", "SEQNUM", "NUMINGROUP"] →
      pyInt f.raw_value.data = none →
      typed_value f = .str f.raw_value) ∧
    (∀ (f : FixField) (d : FixFieldDefinition), f.definition = some d →
      pyUpper d.field_type ∈
          ["FLOAT", "PRICE", "QTY", "AMT", "PERCENTAGE", "PRICEOFFSET"] →
      pyFloatOk f.raw_value.data = false →
      typed_value f = .str f.raw_value) := by
  refine ⟨?_, ?_, ?_⟩
  · intro f d hd hb
    simp [typed_value, hd, hb]
  · intro f d hd hmem hint
    simp only [List.mem_cons, List.not_mem_nil, or_false] at hmem
    rcases hmem with h | h | h | h <;>
      simp [typed_value, hd, h, hint]
  · intro f d hd hmem hfl
    simp only [List.mem_cons, List.not_mem_nil, or_false] at hmem
    rcases hmem with h | h | h | h | h | h <;>
      simp [typed_value, hd, h, hfl]

/-- Witness for C9: a `Boolean`-typed field with raw `N` coerces to
`false`; an `Int`-typed field with raw `abc` falls back to the raw
string; a `PRICE`-typed field with raw `1.2.3` falls back to the raw
string. -/
theorem c9_typed_value_fallback_witness :
    typed_value ⟨54, "N", some ⟨54, "Side", "Boolean", "", []⟩⟩ =
        .bool false ∧
    typed_value ⟨9, "abc", some ⟨9, "BodyLength", "Int", "", []⟩⟩ =
        .str "abc" ∧
    typed_value ⟨44, "1.2.3", some ⟨44, "Price", "PRICE", "", []⟩⟩ =
        .str "1.2.3" := by
  refine ⟨?_, ?_, ?_⟩
  · exact (c9_typed_value_fallback.1 _ ⟨54, "Side", "Boolean", "", []⟩
      rfl (by decide)).trans (by decide)
  · exact c9_typed_value_fallback.2.1 _ ⟨9, "BodyLength", "Int", "", []⟩
      rfl (by decide) (by decide)
  · exact c9_typed_value_fallback.2.2 _ ⟨44, "Price", "PRICE", "", []⟩
      rfl (by decide) (by decide)

/-! ## Lemmas about normalization and the tokenizer -/

/-- The three `replace` calls of `_normalize_delimiter` remove exactly
the CR and LF characters: their composition is a filter. -/
theorem stripNewlines_eq_filter :
    ∀ l : List Char,
      stripNewlines l = l.filter (fun c => !(c = '\r' || c = '\n'))
  | [] => by simp [stripNewlines, removeCRLFPairs, removeChar]
  | [c] => by
    simp only [stripNewlines, removeCRLFPairs, removeChar]
    by_cases h1 : c = '\r' <;> by_cases h2 : c = '\n' <;>
      simp [h1, h2, List.filter_cons]
  | c1 :: c2 :: rest => by
    by_cases hp : c1 = '\r' ∧ c2 = '\n'
    · obtain ⟨h1, h2⟩ := hp
      subst h1
      subst h2
      have ih := stripNewlines_eq_filter rest
      simp only [stripNewlines] at ih
      simp only [stripNewlines, removeCRLFPairs]
      rw [if_pos (by simp)]
      rw [ih]
      simp [List.filter_cons]
    · have ih := stripNewlines_eq_filter (c2 :: rest)
      simp only [stripNewlines] at ih
      simp only [stripNewlines, removeCRLFPairs]
      rw [if_neg (by simpa using hp)]
      simp only [removeChar, List.filter_cons] at ih ⊢
      by_cases h1 : c1 = '\r' <;> by_cases h2 : c1 = '\n' <;>
        simp_all [List.filter_cons]

/-- `str.strip()` yields the empty string exactly on all-whitespace
input. -/
theorem pyStrip_nil_iff (l : List Char) :
    pyStrip l = [] ↔ ∀ c ∈ l, pyIsSpace c = true := by
  unfold pyStrip
  rw [List.reverse_eq_nil_iff, List.dropWhile_eq_nil_iff]
  constructor
  · intro h c hc
    by_cases hd : c ∈ l.dropWhile pyIsSpace
    · exact h c (by simpa using hd)
    · have hsplit := List.takeWhile_append_dropWhile pyIsSpace l
      have : c ∈ l.takeWhile pyIsSpace ++ l.dropWhile pyIsSpace := by
        rw [hsplit]; exact hc
      rcases List.mem_append.mp this with h1 | h1
      · exact List.mem_takeWhile_imp h1
      · exact absurd h1 hd
  · intro h c hc
    exact h c ((List.dropWhile_sublist pyIsSpace).subset (by simpa using hc))

/-- Tokenizer step equation: a digit at the current position whose
maximal digit run is immediately followed by `=` produces a token and
the scan resumes past the value and its optional delimiter. -/
theorem scanAux_succ_hit (fuel : Nat) (c : Char) (cs rest2 : List Char)
    (hd : c.isDigit = true)
    (hdw : (c :: cs).dropWhile Char.isDigit = '=' :: rest2) :
    scanAux (fuel + 1) (c :: cs) =
      (digitsToNat ((c :: cs).takeWhile Char.isDigit),
          ⟨rest2.takeWhile (fun x => x ≠ SOH)⟩) ::
        scanAux fuel (rest2.dropWhile (fun x => x ≠ SOH)).tail := by
  simp only [scanAux, if_pos hd, hdw]

/-- Tokenizer step equation: a non-digit is skipped. -/
theorem scanAux_succ_nondigit (fuel : Nat) (c : Char) (cs : List Char)
    (hd : c.isDigit = false) :
    scanAux (fuel + 1) (c :: cs) = scanAux fuel cs := by
  simp [scanAux, hd]

/-- Tokenizer step equation: a digit whose run is not followed by `=`
fails to match and the scan advances one character. -/
theorem scanAux_succ_digit_fail (fuel : Nat) (c : Char) (cs : List Char)
    (hd : c.isDigit = true)
    (hne : ∀ rest2, (c :: cs).dropWhile Char.isDigit ≠ '=' :: rest2) :
    scanAux (fuel + 1) (c :: cs) = scanAux fuel cs := by
  simp only [scanAux, if_pos hd]

/-- The scan result does not depend on the fuel once the fuel covers
the input length. -/
theorem scanAux_eq_extract :
    ∀ (fuel : Nat) (l : List Char), l.length ≤ fuel →
      scanAux fuel l = extract_fields l := by
  intro fuel
  induction fuel using Nat.strong_induction_on with
  | _ fuel ih =>
    intro l hle
    match fuel, l with
    | 0, [] => rfl
    | fuel + 1, [] => rfl
    | fuel + 1, c :: cs =>
      have hcs : cs.length ≤ fuel := Nat.succ_le_succ_iff.mp hle
      have hfuel : fuel < fuel + 1 := Nat.lt_succ_self fuel
      have hcs' : cs.length < fuel + 1 := Nat.lt_succ_of_le hcs
      have hext : extract_fields (c :: cs) = scanAux (cs.length + 1) (c :: cs) :=
        rfl
      by_cases hd : c.isDigit = true
      · match hdw : (c :: cs).dropWhile Char.isDigit with
        | '=' :: rest2 =>
          have hr2 : rest2.length ≤ cs.length := by
            have h1 : ('=' :: rest2).length ≤ (c :: cs).length := by
              rw [← hdw]
              exact (List.dropWhile_sublist _).length_le
            simpa using h1
          have ht : (rest2.dropWhile (fun x => x ≠ SOH)).tail.length ≤
              cs.length := by
            calc (rest2.dropWhile (fun x => x ≠ SOH)).tail.length
                ≤ (rest2.dropWhile (fun x => x ≠ SOH)).length := by
                  rw [List.length_tail]; omega
              _ ≤ rest2.length := (List.dropWhile_sublist _).length_le
              _ ≤ cs.length := hr2
          rw [hext, scanAux_succ_hit fuel c cs rest2 hd hdw,
            scanAux_succ_hit cs.length c cs rest2 hd hdw,
            ih fuel hfuel _ (le_trans ht hcs),
            ih cs.length hcs' _ ht]
        | [] =>
          have hne : ∀ rest2,
              (c :: cs).dropWhile Char.isDigit ≠ '=' :: rest2 := by
            intro rest2 h
            rw [hdw] at h
            exact List.noConfusion h
          rw [hext, scanAux_succ_digit_fail fuel c cs hd hne,
            scanAux_succ_digit_fail cs.length c cs hd hne,
            ih fuel hfuel cs hcs, ih cs.length hcs' cs le_rfl]
        | c2 :: rest2 =>
          by_cases he : c2 = '='
          · subst he
            have hr2 : rest2.length ≤ cs.length := by
              have h1 : ('=' :: rest2).length ≤ (c :: cs).length := by
                rw [← hdw]
                exact (List.dropWhile_sublist _).length_le
              simpa using h1
            have ht : (rest2.dropWhile (fun x => x ≠ SOH)).tail.length ≤
                cs.length := by
              calc (rest2.dropWhile (fun x => x ≠ SOH)).tail.length
                  ≤ (rest2.dropWhile (fun x => x ≠ SOH)).length := by
                    rw [List.length_tail]; omega
                _ ≤ rest2.length := (List.dropWhile_sublist _).length_le
                _ ≤ cs.length := hr2
            rw [hext, scanAux_succ_hit fuel c cs rest2 hd hdw,
              scanAux_succ_hit cs.length c cs rest2 hd hdw,
              ih fuel hfuel _ (le_trans ht hcs),
              ih cs.length hcs' _ ht]
          · have hne : ∀ r2,
                (c :: cs).dropWhile Char.isDigit ≠ '=' :: r2 := by
              intro r2 h
              rw [hdw] at h
              exact he (List.cons_eq_cons.mp h).1
            rw [hext, scanAux_succ_digit_fail fuel c cs hd hne,
              scanAux_succ_digit_fail cs.length c cs hd hne,
              ih fuel hfuel cs hcs, ih cs.length hcs' cs le_rfl]
      · have hd' : c.isDigit = false := by simpa using hd
        rw [hext, scanAux_succ_nondigit fuel c cs hd',
          scanAux_succ_nondigit cs.length c cs hd',
          ih fuel hfuel cs hcs, ih cs.length hcs' cs le_rfl]

/-- A stretch of text containing no digit yields no tokens: the scan
skips it entirely. -/
theorem scanAux_nil_of_no_digit :
    ∀ (l : List Char) (fuel : Nat), (∀ c ∈ l, c.isDigit = false) →
      scanAux fuel l = [] := by
  intro l
  induction l with
  | nil => intro fuel _; cases fuel <;> rfl
  | cons c cs ih =>
    intro fuel h
    cases fuel with
    | zero => rfl
    | succ fuel =>
      rw [scanAux_succ_nondigit fuel c cs (h c (by simp))]
      exact ih fuel (fun x hx => h x (by simp [hx]))

/-- Normalization never introduces digits: every character of the
normalized text that is a digit was a digit of the input. -/
theorem normalize_no_digit (cfg : ParserConfig) (l : List Char)
    (h : ∀ c ∈ l, c.isDigit = false) :
    ∀ c ∈ normalize_delimiter cfg l, c.isDigit = false := by
  intro c hc
  simp only [normalize_delimiter] at hc
  split_ifs at hc with hp
  · rcases List.mem_map.mp hc with ⟨a, ha, rfl⟩
    have ha' : a.isDigit = false := by
      rw [stripNewlines_eq_filter] at ha
      exact h a (List.mem_filter.mp ha).1
    split_ifs with hpa
    · decide
    · exact ha'
  · rw [stripNewlines_eq_filter] at hc
    exact h c (List.mem_filter.mp hc).1

/-- Whitespace characters are not digits. -/
theorem pyIsSpace_not_digit (c : Char) (h : pyIsSpace c = true) :
    c.isDigit = false := by
  simp only [pyIsSpace, Bool.or_eq_true, decide_eq_true_eq] at h
  rcases h with ((((h | h) | h) | h) | h) | h <;> subst h <;> decide

/-- On all-whitespace input the tokenizer finds nothing. -/
theorem extract_nil_of_blank (cfg : ParserConfig) (raw : String)
    (h : pyStrip raw.data = []) :
    extract_fields (normalize_delimiter cfg raw.data) = [] := by
  have hws := (pyStrip_nil_iff raw.data).mp h
  exact scanAux_nil_of_no_digit _ _
    (normalize_no_digit cfg raw.data
      (fun c hc => pyIsSpace_not_digit c (hws c hc)))

/-- Two raw inputs that agree on blankness and on their normalized text
parse to the same field list and the same errors (only the stored
verbatim `raw_message` can differ). -/
theorem parseFields_congr (dict : Nat → Option FixFieldDefinition)
    (cfg : ParserConfig) (raw1 raw2 : String)
    (hb : pyStrip raw1.data = [] ↔ pyStrip raw2.data = [])
    (hn : normalize_delimiter cfg raw1.data = normalize_delimiter cfg raw2.data) :
    parseFields dict cfg raw1 = parseFields dict cfg raw2 := by
  unfold parseFields parse
  by_cases h1 : pyStrip raw1.data = []
  · rw [if_pos h1, if_pos (hb.mp h1)]
  · rw [if_neg h1, if_neg (fun h => h1 (hb.mpr h)), hn]
    by_cases h2 : extract_fields (normalize_delimiter cfg raw2.data) = []
    · rw [if_pos h2, if_pos h2]
    · rw [if_neg h2, if_neg h2]
      dsimp only
      have hv : validate_structure cfg
          { fields := build_fields dict
              (extract_fields (normalize_delimiter cfg raw2.data)),
            raw_message := raw1 }
            (normalize_delimiter cfg raw2.data) =
          validate_structure cfg
            { fields := build_fields dict
                (extract_fields (normalize_delimiter cfg raw2.data)),
              raw_message := raw2 }
              (normalize_delimiter cfg raw2.data) := rfl
      rw [hv]
      cases validate_structure cfg
          { fields := build_fields dict
              (extract_fields (normalize_delimiter cfg raw2.data)),
            raw_message := raw2 }
            (normalize_delimiter cfg raw2.data) <;> rfl

/-- C6: inserting a CR, LF, or CRLF anywhere in a message — in
particular strictly between two complete tag=value tokens, or inside a
single value — does not change the parse outcome: normalization strips
all CR/LF before tokenizing, so the parsed fields and any error are
identical to those of the unmodified message.  When the break is
inserted inside a value, that field's parsed value is therefore the
concatenation of the two fragments with the break removed (it equals
the value parsed from the unbroken text). -/
theorem c6_crlf_insertion (dict : Nat → Option FixFieldDefinition)
    (cfg : ParserConfig) (pre post brk : List Char)
    (hbrk : brk ∈ [['\r'], ['\n'], ['\r', '\n']]) :
    parseFields dict cfg ⟨pre ++ brk ++ post⟩ =
      parseFields dict cfg ⟨pre ++ post⟩ := by
  simp only [List.mem_cons, List.not_mem_nil, or_false] at hbrk
  have hws : ∀ c ∈ brk, pyIsSpace c = true := by
    rcases hbrk with h | h | h <;> subst h <;> decide
  have hfilter : brk.filter (fun c => !(c = '\r' || c = '\n')) = [] := by
    rcases hbrk with h | h | h <;> subst h <;> decide
  have hn : normalize_delimiter cfg (pre ++ brk ++ post) =
      normalize_delimiter cfg (pre ++ post) := by
    unfold normalize_delimiter
    have hstrip : stripNewlines (pre ++ brk ++ post) =
        stripNewlines (pre ++ post) := by
      rw [stripNewlines_eq_filter, stripNewlines_eq_filter,
        List.filter_append, List.filter_append, List.filter_append,
        hfilter, List.append_nil]
    rw [hstrip]
  have hb : pyStrip (pre ++ brk ++ post) = [] ↔
      pyStrip (pre ++ post) = [] := by
    rw [pyStrip_nil_iff, pyStrip_nil_iff]
    constructor
    · intro h c hc
      rcases List.mem_append.mp hc with h1 | h1
      · exact h c (by simp [h1])
      · exact h c (by simp [h1])
    · intro h c hc
      simp only [List.append_assoc, List.mem_append] at hc
      rcases hc with h1 | h1 | h1
      · exact h c (by simp [h1])
      · exact hws c h1
      · exact h c (by simp [h1])
  exact parseFields_congr dict cfg ⟨pre ++ brk ++ post⟩ ⟨pre ++ post⟩ hb hn

/-- Witness for C6: inserting CRLF between the `35=0` and `49=S` tokens
of a strict-mode-valid message leaves the parse outcome unchanged. -/
theorem c6_crlf_insertion_witness :
    ['\r', '\n'] ∈ [['\r'], ['\n'], ['\r', '\n']] ∧
    parseFields (fun _ => none) {}
        ⟨"8=FIX.4.4\x019=14\x0135=0\x01".data ++ ['\r', '\n'] ++
          "49=S\x0156=T\x0110=206".data⟩ =
      parseFields (fun _ => none) {}
        ⟨"8=FIX.4.4\x019=14\x0135=0\x01".data ++
          "49=S\x0156=T\x0110=206".data⟩ :=
  ⟨by decide,
    c6_crlf_insertion (fun _ => none) {} "8=FIX.4.4\x019=14\x0135=0\x01".data
      "49=S\x0156=T\x0110=206".data ['\r', '\n'] (by decide)⟩

/-- CR/LF stripping commutes with any character substitution that
leaves `\r` and `\n` status unchanged. -/
theorem stripNewlines_map (h : Char → Char)
    (hcr : ∀ c, (h c = '\r' ∨ h c = '\n') ↔ (c = '\r' ∨ c = '\n'))
    (l : List Char) :
    stripNewlines (l.map h) = (stripNewlines l).map h := by
  rw [stripNewlines_eq_filter, stripNewlines_eq_filter, List.filter_map]
  have hp : ((fun c => !(c = '\r' || c = '\n')) ∘ h) =
      fun c => !(c = '\r' || c = '\n') := by
    funext c
    by_cases h1 : c = '\r' ∨ c = '\n'
    · rcases h1 with h1 | h1 <;> subst h1
      · rcases (hcr '\r').mpr (Or.inl rfl) with h2 | h2 <;>
          simp [Function.comp_apply, h2]
      · rcases (hcr '\n').mpr (Or.inr rfl) with h2 | h2 <;>
          simp [Function.comp_apply, h2]
    · have h2 : ¬(h c = '\r' ∨ h c = '\n') := fun hx => h1 ((hcr c).mp hx)
      push_neg at h1 h2
      simp [Function.comp_apply, h1.1, h1.2, h2.1, h2.2]
  rw [hp]

/-- Substituting pipe for SOH throughout a message does not change the
normalized text, when pipe detection is enabled. -/
theorem normalize_sohToPipe (cfg : ParserConfig)
    (hap : cfg.allow_pipe_delimiter = true) (l : List Char) :
    normalize_delimiter cfg
        (l.map (fun c => if c = SOH then '|' else c)) =
      normalize_delimiter cfg l := by
  have hcr : ∀ c : Char,
      (((if c = SOH then '|' else c) = '\r' ∨
        (if c = SOH then '|' else c) = '\n')) ↔ (c = '\r' ∨ c = '\n') := by
    intro c
    by_cases hc : c = SOH
    · subst hc; decide
    · simp [hc]
  unfold normalize_delimiter
  rw [stripNewlines_map _ hcr l]
  set m := stripNewlines l with hm
  have hmem : ('|' ∈ m.map (fun c => if c = SOH then '|' else c)) ↔
      ('|' ∈ m ∨ SOH ∈ m) := by
    rw [List.mem_map]
    constructor
    · rintro ⟨a, ha, hfa⟩
      by_cases hsoh : a = SOH
      · exact Or.inr (hsoh ▸ ha)
      · rw [if_neg hsoh] at hfa
        exact Or.inl (hfa ▸ ha)
    · rintro (h | h)
      · exact ⟨'|', h, by decide⟩
      · exact ⟨SOH, h, by decide⟩
  have hgf : ((fun c => if c = '|' then SOH else c) ∘
      (fun c => if c = SOH then '|' else c)) =
      fun c => if c = '|' then SOH else c := by
    funext c
    by_cases h1 : c = SOH
    · simp [h1]
    · by_cases h2 : c = '|' <;> simp [h1, h2]
  by_cases hpm : '|' ∈ m
  · rw [if_pos ⟨hap, hmem.mpr (Or.inl hpm)⟩, if_pos ⟨hap, hpm⟩,
      List.map_map, hgf]
  · by_cases hsm : SOH ∈ m
    · rw [if_pos ⟨hap, hmem.mpr (Or.inr hsm)⟩, if_neg (fun hx => hpm hx.2),
        List.map_map, hgf]
      calc m.map (fun c => if c = '|' then SOH else c)
          = m.map id := List.map_congr_left (fun a ha => by
            rw [if_neg (fun h => hpm (by rw [← h]; exact ha))]; rfl)
        _ = m := List.map_id m
    · rw [if_neg (fun hx => (hmem.mp hx.2).elim hpm hsm),
        if_neg (fun hx => hpm hx.2)]
      calc m.map (fun c => if c = SOH then '|' else c)
          = m.map id := List.map_congr_left (fun a ha => by
            rw [if_neg (fun h => hsm (by rw [← h]; exact ha))]; rfl)
        _ = m := List.map_id m

/-- Substituting SOH for pipe throughout a message does not change the
normalized text, when pipe detection is enabled. -/
theorem normalize_pipeToSoh (cfg : ParserConfig)
    (hap : cfg.allow_pipe_delimiter = true) (l : List Char) :
    normalize_delimiter cfg
        (l.map (fun c => if c = '|' then SOH else c)) =
      normalize_delimiter cfg l := by
  have hcr : ∀ c : Char,
      (((if c = '|' then SOH else c) = '\r' ∨
        (if c = '|' then SOH else c) = '\n')) ↔ (c = '\r' ∨ c = '\n') := by
    intro c
    by_cases hc : c = '|'
    · subst hc; decide
    · simp [hc]
  unfold normalize_delimiter
  rw [stripNewlines_map _ hcr l]
  set m := stripNewlines l with hm
  have hnot : ¬('|' ∈ m.map (fun c => if c = '|' then SOH else c)) := by
    rw [List.mem_map]
    rintro ⟨a, _, hfa⟩
    by_cases h1 : a = '|'
    · rw [if_pos h1] at hfa
      exact absurd hfa (by decide)
    · rw [if_neg h1] at hfa
      exact h1 hfa
  rw [if_neg (fun hx => hnot hx.2)]
  by_cases hpm : '|' ∈ m
  · rw [if_pos ⟨hap, hpm⟩]
  · rw [if_neg (fun hx => hpm hx.2)]
    calc m.map (fun c => if c = '|' then SOH else c)
        = m.map id := List.map_congr_left (fun a ha => by
          rw [if_neg (fun h => hpm (by rw [← h]; exact ha))]; rfl)
      _ = m := List.map_id m

/-- Blankness is invariant under a character substitution that leaves
whitespace status unchanged. -/
theorem pyStrip_nil_map (h : Char → Char)
    (hws : ∀ c, pyIsSpace (h c) = pyIsSpace c) (l : List Char) :
    (pyStrip (l.map h) = []) ↔ (pyStrip l = []) := by
  rw [pyStrip_nil_iff, pyStrip_nil_iff]
  constructor
  · intro hall c hc
    have := hall (h c) (List.mem_map.mpr ⟨c, hc, rfl⟩)
    rwa [hws c] at this
  · intro hall c hc
    rcases List.mem_map.mp hc with ⟨a, ha, rfl⟩
    rw [hws a]
    exact hall a ha

/-- C7: with pipe-delimiter detection enabled, replacing every SOH with
`|`, or every `|` with SOH, yields the identical parse outcome — the
same flat field sequence (same tags, same values, same order) on
success and the same error on failure. -/
theorem c7_pipe_soh_equivalence (dict : Nat → Option FixFieldDefinition)
    (cfg : ParserConfig) (raw : String)
    (hap : cfg.allow_pipe_delimiter = true) :
    parseFields dict cfg
        ⟨raw.data.map (fun c => if c = SOH then '|' else c)⟩ =
      parseFields dict cfg raw ∧
    parseFields dict cfg
        ⟨raw.data.map (fun c => if c = '|' then SOH else c)⟩ =
      parseFields dict cfg raw := by
  constructor
  · refine parseFields_congr dict cfg _ raw ?_ ?_
    · exact pyStrip_nil_map _ (fun c => by
        by_cases hc : c = SOH
        · subst hc; decide
        · rw [if_neg hc]) raw.data
    · exact normalize_sohToPipe cfg hap raw.data
  · refine parseFields_congr dict cfg _ raw ?_ ?_
    · exact pyStrip_nil_map _ (fun c => by
        by_cases hc : c = '|'
        · subst hc; decide
        · rw [if_neg hc]) raw.data
    · exact normalize_pipeToSoh cfg hap raw.data

/-- Witness for C7: the SOH-delimited and pipe-delimited forms of the
same valid message parse to the same field list. -/
theorem c7_pipe_soh_equivalence_witness :
    (({} : ParserConfig).allow_pipe_delimiter = true) ∧
    parseFields (fun _ => none) {}
        ⟨"8=FIX.4.4\x019=14\x0135=0\x0149=S\x0156=T\x0110=206".data.map
          (fun c => if c = SOH then '|' else c)⟩ =
      parseFields (fun _ => none) {}
        "8=FIX.4.4\x019=14\x0135=0\x0149=S\x0156=T\x0110=206" :=
  ⟨rfl,
    (c7_pipe_soh_equivalence (fun _ => none) {}
      "8=FIX.4.4\x019=14\x0135=0\x0149=S\x0156=T\x0110=206" rfl).1⟩

/-- Amended C5: the `strict_body_length` toggle is never consulted by
the parser — the parse outcome is identical for any two values of the
flag, all other configuration and input being equal.  In particular no
body-length check is performed even when the flag is set. -/
theorem c5_body_length_flag_unused (dict : Nat → Option FixFieldDefinition)
    (sc : Bool) (b1 b2 : Bool) (dd : Char) (ap : Bool) (raw : String) :
    parse dict ⟨sc, b1, dd, ap⟩ raw = parse dict ⟨sc, b2, dd, ap⟩ raw := rfl

/-- Counterexample to C5 as stated: with `strict_body_length := true`
(and checksum checking off so only the body-length clause is in play),
a message whose declared body length 999 is wildly different from the
actual body byte count parses successfully instead of raising a
validation error. -/
theorem c5_counterexample :
    parse (fun _ => none)
        { strict_checksum := false, strict_body_length := true,
          default_delimiter := '\x01', allow_pipe_delimiter := true }
        "8=FIX.4.4|9=999|35=0|10=000" =
      .ok { fields :=
              [⟨8, "FIX.4.4", none⟩, ⟨9, "999", none⟩, ⟨35, "0", none⟩,
                ⟨10, "000", none⟩],
            raw_message := "8=FIX.4.4|9=999|35=0|10=000" } := by
  decide

/-! ## Lemmas relating built fields to raw token pairs -/

theorem build_fields_tag_head? (dict : Nat → Option FixFieldDefinition)
    (rf : List (Nat × String)) :
    ((build_fields dict rf).head?).map FixField.tag =
      rf.head?.map Prod.fst := by
  unfold build_fields
  rw [List.head?_map]
  cases rf.head? <;> rfl

theorem build_fields_tag_get? (dict : Nat → Option FixFieldDefinition)
    (rf : List (Nat × String)) (n : Nat) :
    ((build_fields dict rf).get? n).map FixField.tag =
      (rf.get? n).map Prod.fst := by
  unfold build_fields
  rw [List.get?_map]
  cases rf.get? n <;> rfl

theorem build_fields_tag_getLast? (dict : Nat → Option FixFieldDefinition)
    (rf : List (Nat × String)) :
    ((build_fields dict rf).getLast?).map FixField.tag =
      rf.getLast?.map Prod.fst := by
  unfold build_fields
  rw [List.getLast?_map]
  cases rf.getLast? <;> rfl

theorem build_fields_eq_nil (dict : Nat → Option FixFieldDefinition)
    (rf : List (Nat × String)) :
    build_fields dict rf = [] ↔ rf = [] := by
  unfold build_fields
  exact List.map_eq_nil

/-- C3: whenever the tokenized field list violates the envelope —
position 0 not tag 8, position 1 not tag 9, position 2 not tag 35, or
the last position not tag 10 — `parse` fails with a structural
`ValidationError`: never a `ChecksumError` and never silent success,
for every configuration (in particular with strict checksum enabled and
regardless of what the checksum would be). -/
theorem c3_envelope_violation (dict : Nat → Option FixFieldDefinition)
    (cfg : ParserConfig) (raw : String)
    (hne : extract_fields (normalize_delimiter cfg raw.data) ≠ [])
    (hbad : ¬envelopeOK (extract_fields (normalize_delimiter cfg raw.data))) :
    ∃ m t, parse dict cfg raw = .error (.validationError m t) := by
  set fs := extract_fields (normalize_delimiter cfg raw.data) with hfs
  have hblank : ¬pyStrip raw.data = [] := fun h =>
    hne (by rw [hfs]; exact extract_nil_of_blank cfg raw h)
  have hsuff : ∃ m t,
      validate_structure cfg
          { fields := build_fields dict fs, raw_message := raw }
          (normalize_delimiter cfg raw.data) =
        .error (.validationError m t) := by
    unfold validate_structure
    dsimp only
    rw [if_neg (fun h => hne ((build_fields_eq_nil dict fs).mp h))]
    by_cases h8 : fs.head?.map Prod.fst = some 8
    · rw [if_neg (fun hq => hq ((build_fields_tag_head? dict fs).trans h8))]
      by_cases h9 : (fs.get? 1).map Prod.fst = some 9
      · rw [if_neg (fun hq =>
          hq ((build_fields_tag_get? dict fs 1).trans h9))]
        by_cases h35 : (fs.get? 2).map Prod.fst = some 35
        · rw [if_neg (fun hq =>
            hq ((build_fields_tag_get? dict fs 2).trans h35))]
          by_cases h10 : fs.getLast?.map Prod.fst = some 10
          · exact absurd ⟨h8, h9, h35, h10⟩ hbad
          · rw [if_pos (fun heq =>
              h10 ((build_fields_tag_getLast? dict fs).symm.trans heq))]
            exact ⟨_, _, rfl⟩
        · rw [if_pos (fun heq =>
            h35 ((build_fields_tag_get? dict fs 2).symm.trans heq))]
          exact ⟨_, _, rfl⟩
      · rw [if_pos (fun heq =>
          h9 ((build_fields_tag_get? dict fs 1).symm.trans heq))]
        exact ⟨_, _, rfl⟩
    · rw [if_pos (fun heq =>
        h8 ((build_fields_tag_head? dict fs).symm.trans heq))]
      exact ⟨_, _, rfl⟩
  obtain ⟨m, t, hv⟩ := hsuff
  refine ⟨m, t, ?_⟩
  unfold parse
  rw [if_neg hblank]
  dsimp only
  rw [if_neg hne, hv]

/-- Witness for C3: a message whose first token is tag 9 (not tag 8)
fails with a structural validation error even under strict checksum. -/
theorem c3_envelope_violation_witness :
    (extract_fields (normalize_delimiter {}
        "9=1\x018=F\x0135=0\x0110=000".data) ≠ [] ∧
      ¬envelopeOK (extract_fields (normalize_delimiter {}
        "9=1\x018=F\x0135=0\x0110=000".data))) ∧
    ∃ m t, parse (fun _ => none) {} "9=1\x018=F\x0135=0\x0110=000" =
      .error (.validationError m t) :=
  ⟨⟨by decide, by decide⟩,
    c3_envelope_violation (fun _ => none) {} "9=1\x018=F\x0135=0\x0110=000"
      (by decide) (by decide)⟩

/-! ## Lemmas for the tokenizer's treatment of junk tokens (C8) -/

theorem takeWhile_all_cons {p : Char → Bool} :
    ∀ (l1 : List Char) (x : Char) (t : List Char),
      (∀ c ∈ l1, p c = true) → p x = false →
      (l1 ++ x :: t).takeWhile p = l1 ∧ (l1 ++ x :: t).dropWhile p = x :: t := by
  intro l1
  induction l1 with
  | nil =>
    intro x t _ hx
    simp [List.takeWhile_cons, List.dropWhile_cons, hx]
  | cons c cs ih =>
    intro x t hall hx
    have hc : p c = true := hall c (by simp)
    have := ih x t (fun a ha => hall a (by simp [ha])) hx
    simp [List.takeWhile_cons, List.dropWhile_cons, hc, this.1, this.2]

/-- `noTagStart` is closed under dropping the head. -/
theorem noTagStart_tail : ∀ (c : Char) (t : List Char),
    noTagStart (c :: t) → noTagStart t := by
  intro c t h
  match t with
  | [] => trivial
  | c2 :: rest => exact h.2

/-- Inside a `noTagStart` stretch terminated by a SOH, the character
after any digit run is never `=`. -/
theorem dropWhile_digit_head_ne_eq :
    ∀ (l : List Char) (c : Char) (tail : List Char),
      c.isDigit = true → noTagStart (c :: l) →
      ∃ d rest', (c :: (l ++ SOH :: tail)).dropWhile Char.isDigit =
          d :: rest' ∧ d ≠ '=' := by
  intro l
  induction l with
  | nil =>
    intro c tail hc _
    refine ⟨SOH, tail, ?_, by decide⟩
    rw [List.nil_append, List.dropWhile_cons, if_pos hc,
      List.dropWhile_cons, if_neg (by decide)]
  | cons c2 l' ih =>
    intro c tail hc hnts
    by_cases h2 : c2.isDigit = true
    · obtain ⟨d, rest', hdw, hd⟩ := ih c2 tail h2 hnts.2
      refine ⟨d, rest', ?_, hd⟩
      rw [List.cons_append]
      rw [List.dropWhile_cons, if_pos hc]
      exact hdw
    · have hne : c2 ≠ '=' := fun heq => hnts.1 ⟨hc, heq⟩
      refine ⟨c2, l' ++ SOH :: tail, ?_, hne⟩
      rw [List.cons_append, List.dropWhile_cons, if_pos hc,
        List.dropWhile_cons, if_neg (by simp [h2])]

/-- A SOH-terminated token in which no digit is immediately followed by
`=` contributes nothing: the scan passes over it to the rest. -/
theorem extract_skip_noTagStart :
    ∀ (t rest : List Char), noTagStart t →
      extract_fields (t ++ SOH :: rest) = extract_fields rest := by
  intro t
  induction t with
  | nil =>
    intro rest _
    show scanAux (rest.length + 1) (SOH :: rest) = extract_fields rest
    rw [scanAux_succ_nondigit _ _ _ (by decide),
      scanAux_eq_extract rest.length rest le_rfl]
  | cons c t' ih =>
    intro rest hnts
    have hlen : ((c :: t') ++ SOH :: rest).length =
        (t' ++ SOH :: rest).length + 1 := by simp
    show scanAux (((c :: t') ++ SOH :: rest)).length
        ((c :: t') ++ SOH :: rest) = extract_fields rest
    rw [hlen]
    by_cases hc : c.isDigit = true
    · obtain ⟨d, rest', hdw, hd⟩ :=
        dropWhile_digit_head_ne_eq t' c rest hc hnts
      rw [List.cons_append]
      rw [scanAux_succ_digit_fail _ c _ hc (fun r2 heq => by
        rw [hdw] at heq
        exact hd (List.cons_eq_cons.mp heq).1)]
      rw [scanAux_eq_extract _ _ le_rfl]
      exact ih rest (noTagStart_tail c t' hnts)
    · rw [List.cons_append,
        scanAux_succ_nondigit _ c _ (by simpa using hc),
        scanAux_eq_extract _ _ le_rfl]
      exact ih rest (noTagStart_tail c t' hnts)

/-- A stretch of non-digits is skipped by the scan wherever it occurs. -/
theorem extract_skip_nondigit :
    ∀ (t rest : List Char), (∀ c ∈ t, c.isDigit = false) →
      extract_fields (t ++ rest) = extract_fields rest := by
  intro t
  induction t with
  | nil => intro rest _; rfl
  | cons c t' ih =>
    intro rest hall
    show scanAux ((t' ++ rest).length + 1) (c :: (t' ++ rest)) =
      extract_fields rest
    rw [scanAux_succ_nondigit _ c _ (hall c (by simp)),
      scanAux_eq_extract _ _ le_rfl]
    exact ih rest (fun a ha => hall a (by simp [ha]))

/-- A token formed of junk, a trailing digit run, `=`, and a SOH-free
value contributes exactly one field tagged with the digit run's value. -/
theorem extract_salvaged_tag (junk ds v rest : List Char)
    (hjunk : ∀ c ∈ junk, c.isDigit = false) (hds : ds ≠ [])
    (hdig : ∀ c ∈ ds, c.isDigit = true) (hv : ∀ c ∈ v, c ≠ SOH) :
    extract_fields (junk ++ (ds ++ '=' :: (v ++ SOH :: rest))) =
      (digitsToNat ds, ⟨v⟩) :: extract_fields rest := by
  rw [extract_skip_nondigit junk _ hjunk]
  match ds, hds with
  | d :: ds', _ =>
    have hd : d.isDigit = true := hdig d (by simp)
    have hds' : ∀ c ∈ ds', c.isDigit = true :=
      fun a ha => hdig a (by simp [ha])
    have hsplit := takeWhile_all_cons (p := Char.isDigit)
      (d :: ds') '=' (v ++ SOH :: rest) hdig (by decide)
    have hvsplit := takeWhile_all_cons (p := fun x => x ≠ SOH)
      v SOH rest (fun a ha => by simpa using hv a ha) (by decide)
    have hlen : ((d :: ds') ++ '=' :: (v ++ SOH :: rest)).length =
        (ds' ++ '=' :: (v ++ SOH :: rest)).length + 1 := by simp
    show scanAux (((d :: ds') ++ '=' :: (v ++ SOH :: rest))).length
        ((d :: ds') ++ '=' :: (v ++ SOH :: rest)) = _
    rw [hlen, List.cons_append,
      scanAux_succ_hit _ d _ (v ++ SOH :: rest) hd
        (by rw [← List.cons_append]; exact hsplit.2),
      ← List.cons_append, hsplit.1, hvsplit.1, hvsplit.2]
    have hrest : rest.length ≤ (ds' ++ '=' :: (v ++ SOH :: rest)).length := by
      simp [List.length_append]
      omega
    rw [List.tail_cons, scanAux_eq_extract _ rest hrest]

/-- Counterexample to C8 as stated: the token `Z9=5` has a non-numeric
tag portion (`Z9`, on which Python's `int` fails), yet it is not
discarded — the scan salvages the trailing digit run and contributes
the field `(9, "5")`. -/
theorem c8_counterexample :
    pyInt "Z9".data = none ∧
      extract_fields "Z9=5\x01".data = [(9, "5")] := by
  decide

/-- Amended C8: (1) a SOH-terminated token in which no digit is
immediately followed by `=` — in particular any token whose tag portion
contains no digits at all — is discarded silently, contributing nothing,
and the scan continues with the rest; (2) a token whose tag portion ends
in a digit run preceded only by non-digits contributes one field whose
tag is that trailing run and whose value is the token's value; (3) only
when the whole scan yields zero tokens does parse fail fatally, with the
"no valid fields found" error. -/
theorem c8_amended :
    (∀ (t rest : List Char), noTagStart t →
      extract_fields (t ++ SOH :: rest) = extract_fields rest) ∧
    (∀ (junk ds v rest : List Char),
      (∀ c ∈ junk, c.isDigit = false) → ds ≠ [] →
      (∀ c ∈ ds, c.isDigit = true) → (∀ c ∈ v, c ≠ SOH) →
      extract_fields (junk ++ (ds ++ '=' :: (v ++ SOH :: rest))) =
        (digitsToNat ds, ⟨v⟩) :: extract_fields rest) ∧
    (∀ (dict : Nat → Option FixFieldDefinition) (cfg : ParserConfig)
        (raw : String), pyStrip raw.data ≠ [] →
      extract_fields (normalize_delimiter cfg raw.data) = [] →
      parse dict cfg raw =
        .error (.parseError "No valid fields found in message" none)) := by
  refine ⟨extract_skip_noTagStart, extract_salvaged_tag, ?_⟩
  intro dict cfg raw hblank hzero
  unfold parse
  rw [if_neg hblank]
  dsimp only
  rw [if_pos hzero]

/-- Witness for the amended C8: the token `ZZ=5` is discarded entirely,
the token `Z9=5` contributes `(9, "5")`, and a message tokenizing to
nothing fails with the no-valid-fields error. -/
theorem c8_amended_witness :
    extract_fields ("ZZ=5".data ++ SOH :: "35=0".data) =
        extract_fields "35=0".data ∧
    extract_fields ("Z".data ++ ("9".data ++ '=' :: ("5".data ++
        SOH :: "35=0".data))) = (9, "5") :: extract_fields "35=0".data ∧
    parse (fun _ => none) {} "no fields here" =
      .error (.parseError "No valid fields found in message" none) :=
  ⟨c8_amended.1 "ZZ=5".data "35=0".data (by decide),
    c8_amended.2.1 "Z".data "9".data "5".data "35=0".data
      (by decide) (by decide) (by decide) (by decide),
    c8_amended.2.2 (fun _ => none) {} "no fields here"
      (by decide) (by decide)⟩

/-! ## Lemmas for checksum validation (C4) -/

/-- `rfindFrom` returns the greatest matching index: if `pat` occurs at
`j ≤ n` and at no index in `(j, n]`, the search from `n` finds `j`. -/
theorem rfindFrom_eq (hay pat : List Char) (j : Nat) :
    ∀ n, j ≤ n → (hay.drop j).take pat.length = pat →
      (∀ k, j < k → k ≤ n → (hay.drop k).take pat.length ≠ pat) →
      rfindFrom hay pat n = some j := by
  intro n
  induction n with
  | zero =>
    intro hj hm _
    have : j = 0 := Nat.le_zero.mp hj
    subst this
    rw [List.drop_zero] at hm
    simp [rfindFrom, hm]
  | succ n ih =>
    intro hj hm hno
    simp only [rfindFrom]
    by_cases hn : (hay.drop (n + 1)).take pat.length = pat
    · have hj' : j = n + 1 := by
        by_contra hne
        exact hno (n + 1) (Nat.lt_of_le_of_ne hj hne) le_rfl hn
      rw [if_pos hn, hj']
    · rw [if_neg hn]
      have hj' : j ≤ n := by
        rcases Nat.lt_or_ge j (n + 1) with h | h
        · exact Nat.lt_succ_iff.mp h
        · exact absurd hm (by
            have : j = n + 1 := Nat.le_antisymm hj h
            rw [this]; exact hn)
      exact ih hj' hm (fun k h1 h2 => hno k h1 (Nat.le_succ_of_le h2))

/-- Digit characters as produced by the zero-padded checksum. -/
theorem digitChar_isDigit : ∀ x : Nat, x ≤ 9 →
    (Char.ofNat (48 + x)).isDigit = true := by decide

/-- The checksum string always consists of three digit characters. -/
theorem calculate_checksum_digits (body : List Char) :
    ∀ c ∈ (calculate_checksum body).data, c.isDigit = true := by
  intro c hc
  have ht : (body.map Char.toNat).sum % 256 < 256 := Nat.mod_lt _ (by omega)
  simp only [calculate_checksum, List.mem_cons, List.not_mem_nil,
    or_false] at hc
  set t := (body.map Char.toNat).sum % 256 with htdef
  rcases hc with h | h | h <;> subst h <;> apply digitChar_isDigit <;> omega

/-- The last occurrence of `10=` in `B ++ 10= ++ <digits>` is exactly at
position `B.length`. -/
theorem rfind_trailing (B stored : List Char)
    (hd : ∀ c ∈ stored, c.isDigit = true) :
    strRFind (B ++ '1' :: '0' :: '=' :: stored) "10=".data =
      some B.length := by
  apply rfindFrom_eq
  · simp
  · rw [show ("10=".data : List Char).length = ('1' :: '0' :: '=' :: ([] : List Char)).length from rfl]
    rw [show B.length = B.length from rfl, List.drop_left]
    rfl
  · intro k hk1 hk2 hmatch
    have hksplit : k = B.length + (k - B.length) := by omega
    rw [hksplit, ← List.drop_drop, List.drop_left] at hmatch
    set i := k - B.length with hi
    have hi1 : 1 ≤ i := by omega
    have : i = 1 ∨ i = 2 ∨ 3 ≤ i := by omega
    rcases this with h | h | h
    · rw [h] at hmatch
      simp [List.take] at hmatch
    · rw [h] at hmatch
      simp [List.take] at hmatch
    · have hdrop : ('1' :: '0' :: '=' :: stored).drop i =
          stored.drop (i - 3) := by
        have h3 : i = 3 + (i - 3) := by omega
        conv_lhs => rw [h3]
        rw [← List.drop_drop]
        rfl
      rw [hdrop] at hmatch
      have hmem : '=' ∈ ("10=".data : List Char) := by decide
      rw [← hmatch] at hmem
      have : '=' ∈ stored :=
        List.mem_of_mem_drop (List.mem_of_mem_take hmem)
      have := hd '=' this
      exact absurd this (by decide)

/-- Digit characters are injective in the digit. -/
theorem digitChar_inj : ∀ x : Nat, x ≤ 9 → ∀ y : Nat, y ≤ 9 →
    Char.ofNat (48 + x) = Char.ofNat (48 + y) → x = y := by decide

/-- Flipping one in-range byte of the body changes the checksum: the
byte sums differ by a nonzero amount smaller than 256. -/
theorem calculate_checksum_flip_ne (p s : List Char) (c c' : Char)
    (hne : c ≠ c') (hc : c.toNat < 256) (hc' : c'.toNat < 256) :
    calculate_checksum (p ++ c :: s) ≠ calculate_checksum (p ++ c' :: s) := by
  intro heq
  set S := (p.map Char.toNat).sum + (s.map Char.toNat).sum with hS
  have hsum : ((p ++ c :: s).map Char.toNat).sum = S + c.toNat := by
    simp [hS, List.map_append, List.sum_append]
    omega
  have hsum' : ((p ++ c' :: s).map Char.toNat).sum = S + c'.toNat := by
    simp [hS, List.map_append, List.sum_append]
    omega
  have hdata := congrArg String.data heq
  simp only [calculate_checksum, hsum, hsum'] at hdata
  set t := (S + c.toNat) % 256 with ht
  set t' := (S + c'.toNat) % 256 with ht'
  have htlt : t < 256 := Nat.mod_lt _ (by omega)
  have htlt' : t' < 256 := Nat.mod_lt _ (by omega)
  have h1 := (List.cons_eq_cons.mp hdata).1
  have hrest := (List.cons_eq_cons.mp hdata).2
  have h2 := (List.cons_eq_cons.mp hrest).1
  have h3 := (List.cons_eq_cons.mp (List.cons_eq_cons.mp hrest).2).1
  have e1 : t / 100 = t' / 100 :=
    digitChar_inj _ (by omega) _ (by omega) h1
  have e2 : t / 10 % 10 = t' / 10 % 10 :=
    digitChar_inj _ (by omega) _ (by omega) h2
  have e3 : t % 10 = t' % 10 :=
    digitChar_inj _ (by omega) _ (by omega) h3
  have htt : t = t' := by omega
  have hcn : c.toNat ≠ c'.toNat := fun hx =>
    hne (Char.ext (UInt32.ext hx))
  rw [ht, ht'] at htt
  omega

/-- Fields built from raw pairs find by tag exactly as the raw pairs
find by first component. -/
theorem build_fields_find?_tag (dict : Nat → Option FixFieldDefinition)
    (rf : List (Nat × String)) (tagv : Nat) :
    (build_fields dict rf).find? (fun f => f.tag = tagv) =
      (rf.find? (fun p => p.1 = tagv)).map
        (fun p => { tag := p.1, raw_value := p.2, definition := dict p.1 }) := by
  unfold build_fields
  rw [List.find?_map]
  rfl

/-- Core of C4: under strict checksum, a message of the form
`B ++ "10=" ++ <digits>` whose tokenization is envelope-valid and whose
first tag-10 field carries value `v` parses successfully when the
recomputed checksum of `B` equals `v`, and fails with a
`ChecksumError (recomputed, v)` otherwise. -/
theorem parse_with_trailing_checksum (dict : Nat → Option FixFieldDefinition)
    (cfg : ParserConfig) (B stored : List Char) (v : String)
    (hsc : cfg.strict_checksum = true)
    (hn : normalize_delimiter cfg (B ++ '1' :: '0' :: '=' :: stored) =
      B ++ '1' :: '0' :: '=' :: stored)
    (hd : ∀ c ∈ stored, c.isDigit = true)
    (henv : envelopeOK (extract_fields (B ++ '1' :: '0' :: '=' :: stored)))
    (hfind : ((extract_fields (B ++ '1' :: '0' :: '=' :: stored)).find?
        (fun p => p.1 = 10)).map Prod.snd = some v) :
    parse dict cfg ⟨B ++ '1' :: '0' :: '=' :: stored⟩ =
      if calculate_checksum B = v then
        .ok { fields := build_fields dict
                (extract_fields (B ++ '1' :: '0' :: '=' :: stored)),
              raw_message := ⟨B ++ '1' :: '0' :: '=' :: stored⟩ }
      else .error (.checksumError (calculate_checksum B) v) := by
  set s := B ++ '1' :: '0' :: '=' :: stored with hs
  have hne : extract_fields s ≠ [] := by
    intro h
    rw [h] at henv
    simpa using henv.1
  have hblank : ¬pyStrip s = [] := by
    rw [pyStrip_nil_iff]
    intro hall
    have h1 : '1' ∈ s := by rw [hs]; simp
    have := hall '1' h1
    exact absurd this (by decide)
  obtain ⟨pr, hpr, hv2⟩ := Option.map_eq_some'.mp hfind
  have hval : validate_structure cfg
      { fields := build_fields dict (extract_fields s), raw_message := ⟨s⟩ }
      s =
      if calculate_checksum B = v then Except.ok ()
      else .error (.checksumError (calculate_checksum B) v) := by
    unfold validate_structure
    dsimp only
    rw [if_neg (fun h => hne ((build_fields_eq_nil dict _).mp h)),
      if_neg (fun hq => hq
        ((build_fields_tag_head? dict _).trans henv.1)),
      if_neg (fun hq => hq
        ((build_fields_tag_get? dict _ 1).trans henv.2.1)),
      if_neg (fun hq => hq
        ((build_fields_tag_get? dict _ 2).trans henv.2.2.1)),
      if_neg (fun hq => hq
        ((build_fields_tag_getLast? dict _).trans henv.2.2.2)),
      if_pos hsc]
    unfold validate_checksum FixMessage.get_field
    dsimp only
    have hrfind : strRFind s "10=".data = some B.length := by
      rw [hs]
      exact rfind_trailing B stored hd
    have htake : s.take B.length = B := by
      rw [hs]
      exact List.take_left B _
    simp only [build_fields_find?_tag dict _ 10, hpr, Option.map_some',
      hrfind, htake, hv2]
    by_cases hcv : calculate_checksum B = v
    · rw [if_neg (not_not_intro hcv), if_pos hcv]
    · rw [if_pos hcv, if_neg hcv]
  show parse dict cfg ⟨s⟩ = _
  unfold parse
  rw [if_neg hblank]
  dsimp only
  rw [hn, if_neg hne, hval]
  by_cases hcv : calculate_checksum B = v
  · rw [if_pos hcv, if_pos hcv]
  · rw [if_neg hcv, if_neg hcv]

/-- Amended C4: under strict checksum, (1) a message of the form
`B ++ "10=" ++ checksum(B)` parses successfully provided it normalizes
to itself, tokenizes to an envelope-valid field list, and its first
tag-10 field is the appended checksum; (2) flipping a single in-range
byte of `B` — provided the flipped message still satisfies those same
conditions, with the stored checksum still that of the original `B` —
makes parse fail with a `ChecksumError` carrying both the recomputed
(expected) and stored (actual) 3-digit values, which provably differ.
The extra conditions are forced by the counterexample: a flip that
breaks the envelope fails with a `ValidationError` instead, and an
earlier tag-10 field would be compared in place of the appended one. -/
theorem c4_amended :
    (∀ (dict : Nat → Option FixFieldDefinition) (cfg : ParserConfig)
        (B : List Char),
      cfg.strict_checksum = true →
      normalize_delimiter cfg (appendChecksum B) = appendChecksum B →
      envelopeOK (extract_fields (appendChecksum B)) →
      ((extract_fields (appendChecksum B)).find?
          (fun p => p.1 = 10)).map Prod.snd = some (calculate_checksum B) →
      ∃ m, parse dict cfg ⟨appendChecksum B⟩ = .ok m) ∧
    (∀ (dict : Nat → Option FixFieldDefinition) (cfg : ParserConfig)
        (pre : List Char) (c c' : Char) (post : List Char),
      cfg.strict_checksum = true → c ≠ c' →
      c.toNat < 256 → c'.toNat < 256 →
      normalize_delimiter cfg ((pre ++ c' :: post) ++ '1' :: '0' :: '=' ::
          (calculate_checksum (pre ++ c :: post)).data) =
        (pre ++ c' :: post) ++ '1' :: '0' :: '=' ::
          (calculate_checksum (pre ++ c :: post)).data →
      envelopeOK (extract_fields ((pre ++ c' :: post) ++ '1' :: '0' :: '=' ::
          (calculate_checksum (pre ++ c :: post)).data)) →
      ((extract_fields ((pre ++ c' :: post) ++ '1' :: '0' :: '=' ::
          (calculate_checksum (pre ++ c :: post)).data)).find?
          (fun p => p.1 = 10)).map Prod.snd =
        some (calculate_checksum (pre ++ c :: post)) →
      parse dict cfg ⟨(pre ++ c' :: post) ++ '1' :: '0' :: '=' ::
          (calculate_checksum (pre ++ c :: post)).data⟩ =
          .error (.checksumError (calculate_checksum (pre ++ c' :: post))
            (calculate_checksum (pre ++ c :: post))) ∧
        calculate_checksum (pre ++ c' :: post) ≠
          calculate_checksum (pre ++ c :: post)) := by
  constructor
  · intro dict cfg B hsc hn henv hfind
    have h := parse_with_trailing_checksum dict cfg B
      (calculate_checksum B).data (calculate_checksum B) hsc hn
      (calculate_checksum_digits B) henv hfind
    rw [if_pos rfl] at h
    exact ⟨_, h⟩
  · intro dict cfg pre c c' post hsc hne hc hc' hn henv hfind
    have hflip : calculate_checksum (pre ++ c' :: post) ≠
        calculate_checksum (pre ++ c :: post) :=
      calculate_checksum_flip_ne pre post c' c (fun h => hne h.symm) hc' hc
    have h := parse_with_trailing_checksum dict cfg (pre ++ c' :: post)
      (calculate_checksum (pre ++ c :: post)).data
      (calculate_checksum (pre ++ c :: post)) hsc hn
      (calculate_checksum_digits _) henv hfind
    rw [if_neg hflip] at h
    exact ⟨h, hflip⟩

/-- Counterexample to C4 as stated: for the valid strict-mode message
`B ++ "10=" ++ checksum(B)` with
`B = "8=FIX.4.4␁9=14␁35=0␁49=S␁56=T␁"` (checksum `206`), flipping the
single byte `8` of `B` to `7` makes parse fail with a structural
`ValidationError` — not the `ChecksumError` the claim promises for
every single-byte flip. -/
theorem c4_counterexample :
    parse (fun _ => none) {}
        "7=FIX.4.4\x019=14\x0135=0\x0149=S\x0156=T\x0110=206" =
      .error (.validationError
        "Message must start with BeginString (tag 8)" none) := by
  decide

/-- Witness for the amended C4: the spec's own example body parses
successfully with its checksum `206` appended, and flipping the byte
`S` of the `49=S` field to `R` yields a `ChecksumError` carrying the
recomputed `205` and the stored `206`. -/
theorem c4_amended_witness :
    (∃ m, parse (fun _ => none) {}
        ⟨appendChecksum "8=FIX.4.4\x019=14\x0135=0\x0149=S\x0156=T\x01".data⟩ =
      .ok m) ∧
    parse (fun _ => none) {}
        ⟨("8=FIX.4.4\x019=14\x0135=0\x0149=".data ++ 'R' :: "\x0156=T\x01".data)
          ++ '1' :: '0' :: '=' ::
          (calculate_checksum ("8=FIX.4.4\x019=14\x0135=0\x0149=".data ++
            'S' :: "\x0156=T\x01".data)).data⟩ =
      .error (.checksumError
        (calculate_checksum ("8=FIX.4.4\x019=14\x0135=0\x0149=".data ++
          'R' :: "\x0156=T\x01".data))
        (calculate_checksum ("8=FIX.4.4\x019=14\x0135=0\x0149=".data ++
          'S' :: "\x0156=T\x01".data))) :=
  ⟨c4_amended.1 (fun _ => none) {} "8=FIX.4.4\x019=14\x0135=0\x0149=S\x0156=T\x01".data
      rfl (by decide) (by decide) (by decide),
    (c4_amended.2 (fun _ => none) {} "8=FIX.4.4\x019=14\x0135=0\x0149=".data
      'S' 'R' "\x0156=T\x01".data rfl (by decide) (by decide) (by decide)
      (by decide) (by decide) (by decide)).1⟩
